import Mathlib

/-!
Verification development for the DIYGenie backend (Express + Supabase).

The embedding below translates the policy code of the repository into Lean:

* a model of the JavaScript values manipulated by the plan-normalization
  helper `mapPlanToNormalized` (src/unnamed/part_003, lines 1542-1586),
  including nullish coalescing `??`, truthiness, `String(...)`, `Number(...)`
  and `String.prototype.trim`;
* the entitlement resolver `getEntitlements` and the tier table `TIER_RULES`
  (src/index.js, lines 57-106), with the lazy free-tier profile creation;
* the `requirePreviewOrBuildQuota` middleware and the preview route
  `POST /api/projects/:id/preview` of src/index.js (lines 109-150, 598-684),
  split into the synchronous part and the background completion;
* project creation `POST /api/projects` (src/index.js, lines 451-504) and
  the progress update route `POST /api/projects/:id/progress`
  (src/unnamed/part_003, lines 1686-1711).

Modelling conventions: the Supabase store is a pair of in-memory tables
(row lists); a single-row update is an in-place map over the rows; numeric
JavaScript values are restricted to integers (the code under scrutiny only
sorts by and defaults step orders, which the spec treats as integral), with
the non-finite doubles NaN / Infinity / -Infinity kept as explicit markers.
-/

/-- Model of a JavaScript number: an integer, or one of the non-finite
doubles.  Fractional doubles are outside the model (no claim depends on
them); `Number.isFinite` is true exactly on the `fin` constructor. -/
inductive JNum where
  | fin (i : Int)
  | nan
  | inf
  | negInf
deriving DecidableEq

/-- Model of a JavaScript value as seen by the plan-normalization code:
`undefined`, `null`, booleans, numbers, strings, arrays and plain objects
(ordered key/value lists, first binding wins as in property lookup). -/
inductive JVal where
  | undefined
  | null
  | bool (b : Bool)
  | num (n : JNum)
  | str (s : String)
  | arr (elems : List JVal)
  | obj (fields : List (String × JVal))

/-- JavaScript truthiness: `undefined`, `null`, `false`, `0`, `NaN` and the
empty string are falsy, everything else (including `[]` and `{}`) is truthy. -/
def truthy : JVal → Bool
  | .undefined => false
  | .null => false
  | .bool b => b
  | .num (.fin i) => decide (i ≠ 0)
  | .num .nan => false
  | .num .inf => true
  | .num .negInf => true
  | .str s => decide (s ≠ "")
  | .arr _ => true
  | .obj _ => true

/-- A value is nullish when it is `undefined` or `null` (the values the `??`
operator skips over). -/
def nullish : JVal → Bool
  | .undefined => true
  | .null => true
  | _ => false

/-- The JavaScript nullish-coalescing operator `a ?? b`. -/
def nco (a b : JVal) : JVal :=
  if nullish a then b else a

/-- First binding for a key in an object's field list, `undefined` if the
key is absent. -/
def lookupField : List (String × JVal) → String → JVal
  | [], _ => .undefined
  | (k, v) :: rest, key => if k = key then v else lookupField rest key

/-- Optional-chained property access `v?.key`: a field of an object, and
`undefined` on every non-object (including `null`/`undefined` themselves,
which is what `?.` yields there). -/
def getField : JVal → String → JVal
  | .obj fs, key => lookupField fs key
  | _, _ => .undefined

/-- The source helper `arr` (part_003 line 1542):
`Array.isArray(x) ? x : (x ? [x] : [])`. -/
def arr : JVal → List JVal
  | .arr l => l
  | v => if truthy v then [v] else []

/-- Whitespace for the model of `String.prototype.trim` (space, tab, line
feed, carriage return, vertical tab, form feed). -/
def isJsWs (c : Char) : Bool :=
  c = ' ' || c = '\t' || c = '\n' || c = '\r' || c = '\x0b' || c = '\x0c'

/-- Drop trailing characters satisfying `p` (helper for trim). -/
def dropTrailing (p : Char → Bool) (l : List Char) : List Char :=
  (l.reverse.dropWhile p).reverse

/-- Character-list version of `String.prototype.trim`: drop leading then
trailing whitespace. -/
def trimChars (l : List Char) : List Char :=
  dropTrailing isJsWs (l.dropWhile isJsWs)

/-- Model of `String.prototype.trim`. -/
def jsTrim (s : String) : String :=
  ⟨trimChars s.data⟩

/-- Decimal rendering of a model number, as JavaScript's `String(n)` renders
integers and the non-finite doubles. -/
def jnumStr : JNum → String
  | .fin i => toString i
  | .nan => "NaN"
  | .inf => "Infinity"
  | .negInf => "-Infinity"

mutual

/-- Model of the JavaScript `String(...)` coercion on the values of the
model.  Arrays render as their elements joined with commas, with `null` and
`undefined` elements rendered empty, exactly as `Array.prototype.toString`. -/
def jsToString : JVal → String
  | .undefined => "undefined"
  | .null => "null"
  | .bool b => if b then "true" else "false"
  | .num n => jnumStr n
  | .str s => s
  | .arr l => jsArrStr l
  | .obj _ => "[object Object]"

/-- Comma-joined rendering of an array's elements (`Array.prototype.join`). -/
def jsArrStr : List JVal → String
  | [] => ""
  | [x] => jsElemStr x
  | x :: y :: rest => jsElemStr x ++ "," ++ jsArrStr (y :: rest)

/-- Rendering of a single array element: nullish elements join as empty. -/
def jsElemStr : JVal → String
  | .undefined => ""
  | .null => ""
  | .bool b => if b then "true" else "false"
  | .num n => jnumStr n
  | .str s => s
  | .arr l => jsArrStr l
  | .obj _ => "[object Object]"

end

/-- Accumulator for parsing a run of decimal digits. -/
def digitsToNatAux : List Char → Nat → Option Nat
  | [], acc => some acc
  | c :: cs, acc =>
    if c.isDigit then digitsToNatAux cs (acc * 10 + (c.toNat - 48)) else none

/-- Parse a non-empty run of decimal digits. -/
def digitsToNat? : List Char → Option Nat
  | [] => none
  | l => digitsToNatAux l 0

/-- Parse the body of a numeric string after the optional sign. -/
def parseDigits (sign : Int) (l : List Char) : JNum :=
  match digitsToNat? l with
  | some n => .fin (sign * n)
  | none => .nan

/-- Model of `Number(string)`: trim, empty means `0`, the `Infinity`
spellings, otherwise an optionally signed run of decimal digits; everything
else (in particular fractional or exponent literals, which are outside the
integer model) is `NaN`. -/
def parseJsNumber (s : String) : JNum :=
  let t := jsTrim s
  if t = "" then .fin 0
  else if t = "Infinity" || t = "+Infinity" then .inf
  else if t = "-Infinity" then .negInf
  else
    match t.data with
    | '+' :: rest => parseDigits 1 rest
    | '-' :: rest => parseDigits (-1) rest
    | l => parseDigits 1 l

/-- Model of the JavaScript `Number(...)` coercion.  Arrays coerce through
their string rendering (`ToPrimitive`), plain objects give `NaN`. -/
def toNumber : JVal → JNum
  | .undefined => .nan
  | .null => .fin 0
  | .bool b => .fin (if b then 1 else 0)
  | .num n => n
  | .str s => parseJsNumber s
  | .arr l => parseJsNumber (jsArrStr l)
  | .obj _ => .nan

/-- True exactly on finite model numbers (`Number.isFinite`). -/
def isFiniteNum : JNum → Bool
  | .fin _ => true
  | _ => false

/-- The source helper `num` (part_003 line 1543):
`const v = Number(n); return Number.isFinite(v) ? v : d;` with the default
supplied as a value (the cuts mapper passes `null`). -/
def num (n d : JVal) : JVal :=
  match toNumber n with
  | .fin i => .num (.fin i)
  | _ => d

/-- The helper `num` specialised to an integer default, used for step
`order` (the default `i + 1` is always a finite number). -/
def numInt (n : JVal) (d : Int) : Int :=
  match toNumber n with
  | .fin i => i
  | _ => d

/-! ## Plan normalization (`mapPlanToNormalized`, part_003 lines 1545-1586) -/

/-- Overview block of a normalized plan: the five fields, each either the
resolved source value or `null`. -/
structure Overview where
  title : JVal
  est_time : JVal
  est_cost : JVal
  skill : JVal
  notes : JVal

/-- Normalized material entry: non-empty trimmed `name`, `qty` and `notes`
resolved with `null` fallbacks. -/
structure Material where
  name : String
  qty : JVal
  notes : JVal

/-- Normalized tool entry. -/
structure Tool where
  name : String
  notes : JVal

/-- Normalized cut entry: `qty` is a finite number or `null`. -/
structure Cut where
  item : String
  size : JVal
  qty : JVal
  notes : JVal

/-- Normalized step entry: `order` is always a finite number (the mapper
defaults it to the 1-based input position). -/
structure Step where
  order : Int
  text : String
  notes : JVal

/-- The canonical `{overview, materials, tools, cuts, steps}` shape produced
by `mapPlanToNormalized`. -/
structure NormalizedPlan where
  overview : Overview
  materials : List Material
  tools : List Tool
  cuts : List Cut
  steps : List Step

/-- The source line `const src = input || {}` (together with the `= {}`
parameter default): falsy inputs normalize like the empty object. -/
def planSrc (input : JVal) : JVal :=
  if truthy input then input else .obj []

/-- Overview mapping: nested `overview` fields win over the flat top-level
aliases (`title`, `time`, `cost`, `skill`), missing fields become `null`. -/
def normOverview (src : JVal) : Overview :=
  { title := nco (getField (getField src "overview") "title") (nco (getField src "title") .null)
    est_time := nco (getField (getField src "overview") "est_time") (nco (getField src "time") .null)
    est_cost := nco (getField (getField src "overview") "est_cost") (nco (getField src "cost") .null)
    skill := nco (getField (getField src "overview") "skill") (nco (getField src "skill") .null)
    notes := nco (getField (getField src "overview") "notes") .null }

/-- Material mapper: `name` aliases `item`; `qty` falls through
`qty → quantity → amount → null`. -/
def normMaterial (m : JVal) : Material :=
  { name := jsTrim (jsToString (nco (getField m "name") (nco (getField m "item") (.str ""))))
    qty := nco (getField m "qty") (nco (getField m "quantity") (nco (getField m "amount") .null))
    notes := nco (getField m "notes") .null }

/-- Materials list: map then drop entries with an empty resolved name. -/
def normMaterials (src : JVal) : List Material :=
  ((arr (getField src "materials")).map normMaterial).filter fun m => m.name ≠ ""

/-- Tool mapper: `name` aliases `tool`. -/
def normTool (t : JVal) : Tool :=
  { name := jsTrim (jsToString (nco (getField t "name") (nco (getField t "tool") (.str ""))))
    notes := nco (getField t "notes") .null }

/-- Tools list: map then drop entries with an empty resolved name. -/
def normTools (src : JVal) : List Tool :=
  ((arr (getField src "tools")).map normTool).filter fun t => t.name ≠ ""

/-- Cut mapper: `item` aliases `name`, `size` aliases `dimensions`, `qty`
is coerced with `num(..., null)`. -/
def normCut (c : JVal) : Cut :=
  { item := jsTrim (jsToString (nco (getField c "item") (nco (getField c "name") (.str ""))))
    size := nco (getField c "size") (nco (getField c "dimensions") .null)
    qty := num (nco (getField c "qty") (getField c "quantity")) .null
    notes := nco (getField c "notes") .null }

/-- Cuts list: map then drop entries with an empty resolved item. -/
def normCuts (src : JVal) : List Cut :=
  ((arr (getField src "cuts")).map normCut).filter fun c => c.item ≠ ""

/-- Step mapper at 0-based input position `i`: `text` aliases `step`, and
`order` is `num(s?.order, i + 1)`. -/
def normStep (i : Nat) (s : JVal) : Step :=
  { order := numInt (getField s "order") (Int.ofNat (i + 1))
    text := jsTrim (jsToString (nco (getField s "text") (nco (getField s "step") (.str ""))))
    notes := nco (getField s "notes") .null }

/-- Map the raw steps list with its 0-based positions (the `(s, i)` callback
of the source `map`), starting at position `k`. -/
def normStepsAux (k : Nat) : List JVal → List Step
  | [] => []
  | s :: rest => normStep k s :: normStepsAux (k + 1) rest

/-- The raw steps list the mapper iterates over. -/
def rawSteps (src : JVal) : List JVal :=
  arr (getField src "steps")

/-- The mapped steps before sorting (`stepsRaw` in the source): positions
are assigned before the empty-text filter. -/
def stepsPre (src : JVal) : List Step :=
  (normStepsAux 0 (rawSteps src)).filter fun s => s.text ≠ ""

/-- Stable insertion of a step into a list sorted ascending by `order`:
the inserted element goes before the first strictly-greater-or-equal entry,
keeping earlier input entries in front on ties.  This realizes the ES2019
stable `Array.prototype.sort` with comparator `(a, b) => a.order - b.order`. -/
def insertStep (x : Step) : List Step → List Step
  | [] => [x]
  | y :: ys => if x.order ≤ y.order then x :: y :: ys else y :: insertStep x ys

/-- Stable sort of the mapped steps by ascending `order`. -/
def sortSteps : List Step → List Step
  | [] => []
  | x :: xs => insertStep x (sortSteps xs)

/-- The full `mapPlanToNormalized` mapper (part_003 lines 1545-1586). -/
def mapPlanToNormalized (input : JVal) : NormalizedPlan :=
  { overview := normOverview (planSrc input)
    materials := normMaterials (planSrc input)
    tools := normTools (planSrc input)
    cuts := normCuts (planSrc input)
    steps := sortSteps (stepsPre (planSrc input)) }

/-- Re-encoding of a normalized overview as the JavaScript object the mapper
returned. -/
def overviewToJVal (o : Overview) : JVal :=
  .obj [("title", o.title), ("est_time", o.est_time), ("est_cost", o.est_cost),
        ("skill", o.skill), ("notes", o.notes)]

/-- Re-encoding of a normalized material entry. -/
def materialToJVal (m : Material) : JVal :=
  .obj [("name", .str m.name), ("qty", m.qty), ("notes", m.notes)]

/-- Re-encoding of a normalized tool entry. -/
def toolToJVal (t : Tool) : JVal :=
  .obj [("name", .str t.name), ("notes", t.notes)]

/-- Re-encoding of a normalized cut entry. -/
def cutToJVal (c : Cut) : JVal :=
  .obj [("item", .str c.item), ("size", c.size), ("qty", c.qty), ("notes", c.notes)]

/-- Re-encoding of a normalized step entry. -/
def stepToJVal (s : Step) : JVal :=
  .obj [("order", .num (.fin s.order)), ("text", .str s.text), ("notes", s.notes)]

/-- Re-encoding of a whole normalized plan as the JavaScript object returned
by `mapPlanToNormalized`, so the mapper can be fed its own output. -/
def planToJVal (p : NormalizedPlan) : JVal :=
  .obj [("overview", overviewToJVal p.overview),
        ("materials", .arr (p.materials.map materialToJVal)),
        ("tools", .arr (p.tools.map toolToJVal)),
        ("cuts", .arr (p.cuts.map cutToJVal)),
        ("steps", .arr (p.steps.map stepToJVal))]

/-! ## Store model: profile and project tables (Supabase rows) -/

/-- The dev fallback owner used by `POST /api/projects` when no `user_id`
is supplied (src/index.js line 48). -/
def DEV_USER : String := "00000000-0000-0000-0000-000000000001"

/-- A project row.  The progress and plan columns are kept as raw
JavaScript values because the progress route persists whatever the caller
sent, and columns default to SQL `null`. -/
structure Project where
  id : String
  user_id : String
  name : String
  status : String
  input_image_url : Option String
  preview_url : Option String
  budget : Option String
  skill : Option String
  plan_json : JVal
  completed_steps : JVal
  current_step_index : JVal

/-- The store: the `profiles` table as `(user_id, plan_tier)` rows (the
Stripe linkage columns play no part in the claims) and the `projects`
table.  `user_id` carries a unique key in `profiles`; the row list keeps
duplicates representable so that unique-key violations are a real event. -/
structure Tables where
  profiles : List (String × String)
  projects : List Project

/-- Profile lookup by user id (`.eq('user_id', u).single()`), first match. -/
def profFind (ps : List (String × String)) (u : String) : Option String :=
  (ps.find? fun r => r.1 = u).map fun r => r.2

/-- Insert under the unique key on `user_id`: a duplicate key is reported
as an error (Postgres 23505), otherwise the row is appended. -/
def profInsert (ps : List (String × String)) (u t : String) : Except Unit (List (String × String)) :=
  if ps.any fun r => r.1 = u then .error () else .ok (ps ++ [(u, t)])

/-- Insert whose result object is discarded by the caller, so a duplicate
key is silently ignored (the `await supabase...insert(...).single()`
statements that do not destructure `error`). -/
def profInsertIgnore (ps : List (String × String)) (u t : String) : List (String × String) :=
  match profInsert ps u t with
  | .ok ps' => ps'
  | .error _ => ps

/-- Number of profile rows stored for a user. -/
def profCount (ps : List (String × String)) (u : String) : Nat :=
  (ps.filter fun r => r.1 = u).length

/-- Project lookup by id (`.eq('id', id)`), first match. -/
def findProject (l : List Project) (pid : String) : Option Project :=
  l.find? fun p => p.id = pid

/-- `select('id', { count: 'exact' }).eq('user_id', userId)`: how many
projects the user owns. -/
def countProjects (db : Tables) (u : String) : Nat :=
  (db.projects.filter fun p => p.user_id = u).length

/-- Single-row update applied to every row matching the id (ids are unique
in practice; `update ... .eq('id', id)` touches all matches). -/
def updateWhere (l : List Project) (pid : String) (f : Project → Project) : List Project :=
  l.map fun p => if p.id = pid then f p else p

/-- Status-only update (`update({ status }).eq('id', id)`). -/
def setStatus (db : Tables) (pid status : String) : Tables :=
  { db with projects := updateWhere db.projects pid fun p => { p with status := status } }

/-! ## Entitlement resolver (`TIER_RULES` / `getEntitlements`, src/index.js 57-106) -/

/-- The tier table (src/index.js lines 58-62): quota and preview flag per
tier. -/
def TIER_RULES (t : String) : Option (Int × Bool) :=
  if t = "free" then some (2, false)
  else if t = "casual" then some (5, true)
  else if t = "pro" then some (25, true)
  else none

/-- The resolved entitlement record returned by `getEntitlements`.  The
`error` field mirrors the JSON field attached on storage-lookup failures;
storage itself never fails inside this model, and the duplicate-key path
deliberately leaves it empty. -/
structure Ent where
  tier : String
  quota : Int
  previewAllowed : Bool
  remaining : Int
  error : Option String
deriving DecidableEq

/-- Build the entitlement from a tier string and the user's project count:
`TIER_RULES[tier] || TIER_RULES.free`, then
`remaining = Math.max(0, quota - used)` and `previewAllowed = !!preview`. -/
def mkEnt (tier : String) (used : Nat) : Ent :=
  let rules := (TIER_RULES tier).getD (2, false)
  { tier := tier
    quota := rules.1
    previewAllowed := rules.2
    remaining := max 0 (rules.1 - (used : Int))
    error := none }

/-- First half of `getEntitlements`: the profile lookup
(`select('plan_tier').eq('user_id', userId).single()`), where an absent row
surfaces as the PGRST116 error, modelled as `none`. -/
def resolveLookup (db : Tables) (u : String) : Option String :=
  profFind db.profiles u

/-- Second half of `getEntitlements`, taking the earlier lookup's outcome:
on PGRST116 the resolver inserts a free profile; a duplicate-key failure of
that insert leaves `prof` empty and `profErr` cleared, so the caller simply
proceeds with the `'free'` default and no error is surfaced.  Finally the
tier is mapped through `TIER_RULES` and the project count taken. -/
def resolveEnsure (db : Tables) (u : String) (found : Option String) : Tables × Ent :=
  match found with
  | some t => (db, mkEnt t (countProjects db u))
  | none =>
    match profInsert db.profiles u "free" with
    | .ok ps' =>
      let db' := { db with profiles := ps' }
      (db', mkEnt "free" (countProjects db' u))
    | .error _ => (db, mkEnt "free" (countProjects db u))

/-- `getEntitlements(supabase, userId)` (src/index.js lines 64-106). -/
def getEntitlements (db : Tables) (u : String) : Tables × Ent :=
  resolveEnsure db u (resolveLookup db u)

/-- Two overlapping `getEntitlements` calls for the same user, interleaved
at the await boundary between the profile lookup and the lazy insert: both
calls observe the missing row, the second call's insert lands first, and
the first call's insert then hits the duplicate-key error.  Returns the
final store and the two entitlements (first call's result last computed). -/
def racedGetEntitlements (db : Tables) (u : String) : Tables × Ent × Ent :=
  let f1 := resolveLookup db u
  let f2 := resolveLookup db u
  let (db1, e2) := resolveEnsure db u f2
  let (db2, e1) := resolveEnsure db1 u f1
  (db2, e1, e2)

/-! ## HTTP responses and the preview gate (src/index.js 109-150) -/

/-- A JSON response: HTTP status, the `ok` flag and the `error` field. -/
structure Resp where
  status : Nat
  ok : Bool
  error : Option String
deriving DecidableEq

/-- The `requirePreviewOrBuildQuota` middleware.  `uid` is the resolved
`user_id` from query/body/params (`none` when absent everywhere); `g` is
the random UUID the `'auto'` branch would generate.  Produces either an
error response or the `(userId, entitlements)` pair passed to the handler. -/
def requirePreviewOrBuildQuota (db : Tables) (uid : Option String) (g : String) :
    Tables × Except Resp (String × Ent) :=
  match uid with
  | none => (db, .error ⟨400, false, some "missing_user_id"⟩)
  | some u₀ =>
    let db₁ := if u₀ = "auto" then { db with profiles := profInsertIgnore db.profiles g "free" } else db
    let u := if u₀ = "auto" then g else u₀
    if u = "" then (db₁, .error ⟨400, false, some "missing_user_id"⟩)
    else
      let r := getEntitlements db₁ u
      if !r.2.previewAllowed then (r.1, .error ⟨403, false, some "upgrade_required"⟩)
      else if r.2.remaining ≤ 0 then (r.1, .error ⟨403, false, some "upgrade_required"⟩)
      else (r.1, .ok (u, r.2))

/-- An image URL is missing when the column is SQL `null` or the empty
string (the handler tests JavaScript truthiness of `input_image_url`). -/
def blankImg : Option String → Bool
  | none => true
  | some s => s = ""

/-- The data handed to the deferred background completion: the project id
and the image URL snapshotted before the status update. -/
structure BgJob where
  pid : String
  inputImage : String
deriving DecidableEq

/-- Synchronous part of `POST /api/projects/:id/preview` (src/index.js
lines 601-627): run the gate, load the project, reject on a missing row or
missing image, otherwise mark `preview_requested`, answer `{ok:true}` and
schedule the background completion. -/
def previewRoute (db : Tables) (uid : Option String) (g : String) (pid : String) :
    Tables × Resp × Option BgJob :=
  match requirePreviewOrBuildQuota db uid g with
  | (db₁, .error r) => (db₁, r, none)
  | (db₁, .ok _) =>
    match findProject db₁.projects pid with
    | none => (db₁, ⟨404, false, some "project_not_found"⟩, none)
    | some p =>
      if blankImg p.input_image_url then
        (db₁, ⟨422, false, some "missing_input_image_url"⟩, none)
      else
        (setStatus db₁ pid "preview_requested", ⟨200, true, none⟩,
          some ⟨pid, p.input_image_url.getD ""⟩)

/-- Provider configuration for the preview background task
(`PREVIEW_PROVIDER` and the presence of `DECOR8_API_KEY`). -/
structure PreviewEnv where
  provider : String
  hasDecor8Key : Bool

/-- Outcome of the `callDecor8Generate` call: the `info.images` list of a
successful response, or a thrown error (non-2xx status or network
failure). -/
inductive Decor8Result where
  | ok (images : List String)
  | err
deriving DecidableEq

/-- Url/delay choice of the background completion of the preview route
(src/index.js lines 630-655).  `preview_url` starts as the snapshotted
input image; a Decor8 success with a truthy first image replaces it; a
Decor8 throw, or a non-Decor8 configuration, turns on the artificial
5-second stub delay. -/
def previewChoice (job : BgJob) (env : PreviewEnv) (d8 : Decor8Result) : String × Bool :=
  if env.provider = "decor8" && env.hasDecor8Key then
    match d8 with
    | .ok l =>
      match l.head? with
      | some u => (if u = "" then job.inputImage else u, false)
      | none => (job.inputImage, false)
    | .err => (job.inputImage, true)
  else (job.inputImage, true)

/-- Background completion of the preview route (src/index.js lines
629-678): the project is set to `preview_ready` with the chosen url on the
normal path.  Only a throw of the final store update (`updateThrows`, e.g.
the network to Supabase failing) reaches the catch block that writes
`preview_error`; a provider failure alone never does.  Returns the new
store and whether the stub delay ran. -/
def bgPreview (db : Tables) (job : BgJob) (env : PreviewEnv) (d8 : Decor8Result)
    (updateThrows : Bool) : Tables × Bool :=
  if updateThrows then
    (setStatus db job.pid "preview_error", (previewChoice job env d8).2)
  else
    ({ db with projects := updateWhere db.projects job.pid fun p =>
        { p with status := "preview_ready", preview_url := some (previewChoice job env d8).1 } },
      (previewChoice job env d8).2)

/-! ## Project creation (`POST /api/projects`, src/index.js 451-504) -/

/-- A field is included in the insert object only when truthy
(`if (budget) insert.budget = budget`). -/
def truthyField (v : Option String) : Option String :=
  match v with
  | some s => if s = "" then none else some s
  | none => none

/-- The row inserted by `POST /api/projects`: `user_id || DEV_USER`, the
trimmed name, status `draft`, no image and no preview, truthy-only budget
and skill, progress columns at their SQL `null` defaults. -/
def newProjectRow (uid : Option String) (trimmedName : String)
    (budget skill : Option String) (newId : String) : Project :=
  { id := newId
    user_id := match uid with
      | some s => if s = "" then DEV_USER else s
      | none => DEV_USER
    name := trimmedName, status := "draft"
    input_image_url := none, preview_url := none
    budget := truthyField budget, skill := truthyField skill
    plan_json := .null, completed_steps := .null, current_step_index := .null }

/-- `POST /api/projects` (src/index.js lines 453-504): resolve the `'auto'`
user (generated UUID `g`, free profile inserted, insert error ignored),
validate the trimmed name against the 10-character minimum, then insert a
`draft` project (`newId` is the id the database generates).  No entitlement
or quota lookup appears anywhere on this path. -/
def createProject (db : Tables) (user_id name : Option String)
    (budget skill : Option String) (g newId : String) : Tables × Resp :=
  let auto := user_id = some "auto"
  let db₁ := if auto then { db with profiles := profInsertIgnore db.profiles g "free" } else db
  let uid := if auto then some g else user_id
  let trimmedName := jsTrim (name.getD "")
  if trimmedName.length < 10 then
    (db₁, ⟨400, false, some "name_must_be_at_least_10_characters"⟩)
  else
    ({ db₁ with projects := db₁.projects ++ [newProjectRow uid trimmedName budget skill newId] },
      ⟨200, true, none⟩)

/-! ## Progress update (`POST /api/projects/:id/progress`, part_003 1686-1711) -/

/-- A body field that is absent (`undefined`) is dropped from the update
payload by JSON serialization, leaving the column untouched; any other
value is written verbatim. -/
def bodyField (v old : JVal) : JVal :=
  match v with
  | .undefined => old
  | w => w

/-- `POST /api/projects/:id/progress`: update `completed_steps` and
`current_step_index` with the raw body values — no coercion, no bounds
check against `plan_json.steps` — and 404 when no row matched. -/
def updateProgress (db : Tables) (pid : String) (cs ci : JVal) : Tables × Resp :=
  match findProject db.projects pid with
  | none => (db, ⟨404, false, some "project_not_found"⟩)
  | some _ =>
    ({ db with projects := updateWhere db.projects pid fun p =>
        { p with completed_steps := bodyField cs p.completed_steps
                 current_step_index := bodyField ci p.current_step_index } },
      ⟨200, true, none⟩)

/-- Number of steps recorded in a project's stored plan. -/
def planStepCount (p : Project) : Nat :=
  match getField p.plan_json "steps" with
  | .arr l => l.length
  | _ => 0

/-- The spec's progress invariant on a stored row: `current_step_index`
indexes within `[0, len(plan_json.steps))` when steps exist and is `0`
when none do.  An unset (SQL `null` / absent) index counts as `0`; a
non-numeric stored index violates the invariant. -/
def progressInvariantHolds (p : Project) : Bool :=
  let n := planStepCount p
  match p.current_step_index with
  | .null => true
  | .undefined => true
  | .num (.fin i) => if n = 0 then i = 0 else 0 ≤ i && i < (n : Int)
  | _ => false

/-! ## Helper lemmas -/

/-- Characterization of the entitlement record built from a tier string and
a project count: the tier-table values and the clamped remaining quota. -/
theorem mkEnt_spec (t : String) (used : Nat) :
    ((mkEnt t used).tier = "free" → (mkEnt t used).quota = 2 ∧ (mkEnt t used).previewAllowed = false) ∧
    ((mkEnt t used).tier = "casual" → (mkEnt t used).quota = 5 ∧ (mkEnt t used).previewAllowed = true) ∧
    ((mkEnt t used).tier = "pro" → (mkEnt t used).quota = 25 ∧ (mkEnt t used).previewAllowed = true) ∧
    (mkEnt t used).remaining = max 0 ((mkEnt t used).quota - (used : Int)) ∧
    0 ≤ (mkEnt t used).remaining := by
  have htier : (mkEnt t used).tier = t := rfl
  refine ⟨?_, ?_, ?_, rfl, le_max_left _ _⟩ <;>
    (intro h; rw [htier] at h; subst h; exact ⟨rfl, rfl⟩)

/-- The entitlement resolver only ever touches the profiles table. -/
theorem getEntitlements_projects (db : Tables) (u : String) :
    (getEntitlements db u).1.projects = db.projects := by
  unfold getEntitlements resolveEnsure
  cases resolveLookup db u with
  | some t => rfl
  | none =>
    cases profInsert db.profiles u "free" with
    | ok ps' => rfl
    | error e => rfl

/-- The gate middleware only ever touches the profiles table. -/
theorem gate_projects (db : Tables) (uid : Option String) (g : String) :
    (requirePreviewOrBuildQuota db uid g).1.projects = db.projects := by
  unfold requirePreviewOrBuildQuota
  cases uid with
  | none => rfl
  | some u₀ =>
    by_cases ha : u₀ = "auto" <;>
      simp only [ha, if_pos, if_neg, not_false_iff] <;>
      (repeat' split) <;>
      (try rfl) <;>
      simp [getEntitlements_projects]

/-- When the profile row exists, the resolver reads it and leaves the store
untouched. -/
theorem getEntitlements_found (db : Tables) (u t : String)
    (ht : profFind db.profiles u = some t) :
    getEntitlements db u = (db, mkEnt t (countProjects db u)) := by
  simp [getEntitlements, resolveLookup, resolveEnsure, ht]

/-- A single-row update commutes with lookup by the same id, provided the
update does not change the id column. -/
theorem findProject_updateWhere (l : List Project) (pid : String) (f : Project → Project)
    (hf : ∀ q, (f q).id = q.id) :
    findProject (updateWhere l pid f) pid = (findProject l pid).map f := by
  induction l with
  | nil => rfl
  | cons a l ih =>
    by_cases ha : a.id = pid
    · simp [findProject, updateWhere, List.find?_cons, ha, hf]
    · simp [findProject, updateWhere, List.find?_cons, ha] at ih ⊢
      exact ih

/-! ## Claim theorems: entitlements and preview gating -/

/-- C1: for every user the entitlement returned by the resolver satisfies
the fixed tier table (`free` 2 / no preview, `casual` 5 / preview,
`pro` 25 / preview) and `remaining = max(0, quota - used)`, never
negative, for every value of the project count. -/
theorem entitlements_tier_table (db : Tables) (u : String) :
    ((getEntitlements db u).2.tier = "free" → (getEntitlements db u).2.quota = 2 ∧ (getEntitlements db u).2.previewAllowed = false) ∧
    ((getEntitlements db u).2.tier = "casual" → (getEntitlements db u).2.quota = 5 ∧ (getEntitlements db u).2.previewAllowed = true) ∧
    ((getEntitlements db u).2.tier = "pro" → (getEntitlements db u).2.quota = 25 ∧ (getEntitlements db u).2.previewAllowed = true) ∧
    (getEntitlements db u).2.remaining = max 0 ((getEntitlements db u).2.quota - (countProjects db u : Int)) ∧
    0 ≤ (getEntitlements db u).2.remaining := by
  unfold getEntitlements resolveEnsure
  cases resolveLookup db u with
  | some t => exact mkEnt_spec t (countProjects db u)
  | none =>
    cases profInsert db.profiles u "free" with
    | ok ps' => exact mkEnt_spec "free" (countProjects db u)
    | error e => exact mkEnt_spec "free" (countProjects db u)

/-- C2: a preview request by a free-tier user is rejected by the gate with
the 403 `upgrade_required` permission error before the project row is even
read: the store — in particular every project's status — is returned
unchanged and no background work is scheduled. -/
theorem preview_free_tier_rejected (db : Tables) (u g pid : String)
    (hu : u ≠ "auto") (hne : u ≠ "") (ht : profFind db.profiles u = some "free") :
    previewRoute db (some u) g pid = (db, ⟨403, false, some "upgrade_required"⟩, none) := by
  have hgate : requirePreviewOrBuildQuota db (some u) g
      = (db, .error ⟨403, false, some "upgrade_required"⟩) := by
    unfold requirePreviewOrBuildQuota
    simp only [if_neg hu, if_neg hne, getEntitlements_found db u "free" ht]
    rfl
  unfold previewRoute
  rw [hgate]

/-- C3: when the project's `input_image_url` is not set the preview route
never changes the projects table and schedules no background work, and
whenever the tier/quota gate passes it answers with the 422
`missing_input_image_url` precondition error. -/
theorem preview_missing_image_precondition (db : Tables) (uid : Option String)
    (g pid : String) (p : Project) (hp : findProject db.projects pid = some p)
    (himg : blankImg p.input_image_url = true) :
    (previewRoute db uid g pid).1.projects = db.projects ∧
    (previewRoute db uid g pid).2.2 = none ∧
    (∀ db₁ ue, requirePreviewOrBuildQuota db uid g = (db₁, .ok ue) →
      (previewRoute db uid g pid).2.1 = ⟨422, false, some "missing_input_image_url"⟩) := by
  rcases hm : requirePreviewOrBuildQuota db uid g with ⟨db₁, r⟩
  have hdb₁ : db₁.projects = db.projects := by
    have := gate_projects db uid g
    rw [hm] at this
    exact this
  cases r with
  | error e =>
    refine ⟨?_, ?_, ?_⟩
    · simp [previewRoute, hm, hdb₁]
    · simp [previewRoute, hm]
    · intro db₂ ue h
      simp at h
  | ok ue =>
    refine ⟨?_, ?_, ?_⟩
    · simp [previewRoute, hm, hdb₁, hp, himg]
    · simp [previewRoute, hm, hdb₁, hp, himg]
    · intro db₂ ue' h
      simp [previewRoute, hm, hdb₁, hp, himg]

/-- C4: when the configured Decor8 provider call throws, the background
completion falls back to the snapshotted input image as a deterministic
stub result, runs the artificial stub delay, and still moves the project
to `preview_ready` with `preview_url` set; moreover, under any provider
outcome the project can only end in `preview_error` when the final store
update itself threw — never solely because the provider failed. -/
theorem preview_provider_failure_fallback (db : Tables) (job : BgJob) (env : PreviewEnv)
    (p : Project) (h1 : env.provider = "decor8") (h2 : env.hasDecor8Key = true)
    (hp : findProject db.projects job.pid = some p) :
    ((bgPreview db job env .err false).2 = true ∧
     findProject (bgPreview db job env .err false).1.projects job.pid
       = some { p with status := "preview_ready", preview_url := some job.inputImage }) ∧
    (∀ d8 uT p', findProject (bgPreview db job env d8 uT).1.projects job.pid = some p' →
       p'.status = "preview_error" → uT = true) := by
  have hchoice : previewChoice job env .err = (job.inputImage, true) := by
    simp [previewChoice, h1, h2]
  refine ⟨⟨?_, ?_⟩, ?_⟩
  · simp [bgPreview, hchoice]
  · simp only [bgPreview, if_neg Bool.false_ne_true, hchoice]
    rw [findProject_updateWhere db.projects job.pid
      (fun q => { q with status := "preview_ready", preview_url := some job.inputImage })
      (fun q => rfl), hp]
    rfl
  · intro d8 uT p' hfind hstat
    cases uT with
    | true => rfl
    | false =>
      exfalso
      simp only [bgPreview, if_neg Bool.false_ne_true] at hfind
      rw [findProject_updateWhere db.projects job.pid
        (fun q => { q with status := "preview_ready",
                           preview_url := some (previewChoice job env d8).1 })
        (fun q => rfl), hp] at hfind
      simp at hfind
      rw [← hfind] at hstat
      simp at hstat

/-! ## Claim theorems: lazy profile creation, project creation, progress -/

/-- An absent profile row means no stored row carries the key. -/
theorem profFind_none_iff (ps : List (String × String)) (u : String) :
    profFind ps u = none ↔ ∀ r ∈ ps, ¬ r.1 = u := by
  simp [profFind, List.find?_eq_none]

/-- Lookup in an extended table falls through to the appended row. -/
theorem profFind_append_single (ps : List (String × String)) (u t : String)
    (h : profFind ps u = none) :
    profFind (ps ++ [(u, t)]) u = some t := by
  rw [profFind_none_iff] at h
  induction ps with
  | nil => simp [profFind, List.find?]
  | cons a ps ih =>
    have ha : ¬ a.1 = u := h a (by simp)
    simp only [List.cons_append, profFind, List.find?_cons, decide_eq_true_eq] at *
    rw [decide_eq_false ha]
    exact ih fun r hr => h r (List.mem_cons_of_mem a hr)

/-- C7: resolving entitlements for a user with no profile row lazily
creates a single `free` row, and the creation is idempotent under races:
with two calls interleaved at the lookup/insert boundary the loser's
duplicate-key insert error is swallowed (both entitlements come back
error-free, the loser reporting tier `free`), exactly one row exists
afterwards and it stores tier `free`; two back-to-back sequential calls
likewise leave exactly one row. -/
theorem lazy_profile_creation_race (db : Tables) (u : String)
    (h : resolveLookup db u = none) :
    profCount (racedGetEntitlements db u).1.profiles u = 1 ∧
    (racedGetEntitlements db u).2.1.error = none ∧
    (racedGetEntitlements db u).2.2.error = none ∧
    (racedGetEntitlements db u).2.1.tier = "free" ∧
    profFind (racedGetEntitlements db u).1.profiles u = some "free" ∧
    profCount (getEntitlements (getEntitlements db u).1 u).1.profiles u = 1 := by
  have hnone : ∀ r ∈ db.profiles, ¬ r.1 = u := (profFind_none_iff _ _).mp h
  have hany : db.profiles.any (fun r => r.1 = u) = false := by
    simp only [List.any_eq_false, decide_eq_true_eq]
    exact hnone
  have hins : profInsert db.profiles u "free" = .ok (db.profiles ++ [(u, "free")]) := by
    simp [profInsert, hany]
  have hany2 : (db.profiles ++ [(u, "free")]).any (fun r => r.1 = u) = true := by
    simp
  have hins2 : profInsert (db.profiles ++ [(u, "free")]) u "free" = .error () := by
    simp [profInsert, hany2]
  have hfilter : db.profiles.filter (fun r => r.1 = u) = [] := by
    simp only [List.filter_eq_nil_iff, decide_eq_true_eq]
    exact hnone
  have hcount : profCount (db.profiles ++ [(u, "free")]) u = 1 := by
    simp [profCount, List.filter_append, hfilter]
  have hfound : profFind (db.profiles ++ [(u, "free")]) u = some "free" :=
    profFind_append_single db.profiles u "free" h
  have hraced : racedGetEntitlements db u =
      ({ db with profiles := db.profiles ++ [(u, "free")] },
        mkEnt "free" (countProjects { db with profiles := db.profiles ++ [(u, "free")] } u),
        mkEnt "free" (countProjects { db with profiles := db.profiles ++ [(u, "free")] } u)) := by
    unfold racedGetEntitlements resolveEnsure
    rw [h]
    simp only [hins, hins2]
  have hseq1 : getEntitlements db u =
      ({ db with profiles := db.profiles ++ [(u, "free")] },
        mkEnt "free" (countProjects { db with profiles := db.profiles ++ [(u, "free")] } u)) := by
    unfold getEntitlements resolveEnsure
    rw [h, hins]
  have hseq2 : getEntitlements { db with profiles := db.profiles ++ [(u, "free")] } u
      = ({ db with profiles := db.profiles ++ [(u, "free")] },
         mkEnt "free" (countProjects { db with profiles := db.profiles ++ [(u, "free")] } u)) :=
    getEntitlements_found _ u "free" hfound
  refine ⟨?_, ?_, ?_, ?_, ?_, ?_⟩
  · rw [hraced]; exact hcount
  · rw [hraced]; rfl
  · rw [hraced]; rfl
  · rw [hraced]; rfl
  · rw [hraced]; exact hfound
  · simp only [hseq1, hseq2]
    exact hcount

/-- C9: project creation is never quota-gated.  For every store — whatever
the owner's tier and however many projects they already own — a creation
request with a valid name appends a new `draft` project row, and the
response does not depend on the profiles table at all (no entitlement
check runs on this path). -/
theorem create_project_not_quota_gated (db : Tables) (uid name : Option String)
    (budget skill : Option String) (g newId : String)
    (hu : uid ≠ some "auto") (hn : 10 ≤ (jsTrim (name.getD "")).length) :
    createProject db uid name budget skill g newId =
      ({ db with projects := db.projects ++ [newProjectRow uid (jsTrim (name.getD "")) budget skill newId] },
        ⟨200, true, none⟩) ∧
    (newProjectRow uid (jsTrim (name.getD "")) budget skill newId).status = "draft" ∧
    (∀ ps', (createProject { db with profiles := ps' } uid name budget skill g newId).2
          = (createProject db uid name budget skill g newId).2) := by
  have hlt : ¬ (jsTrim (name.getD "")).length < 10 := not_lt.mpr hn
  refine ⟨?_, rfl, ?_⟩
  · simp [createProject, if_neg hu, hlt]
  · intro ps'
    simp [createProject, if_neg hu, hlt]

/-- C10: project creation rejects exactly the names whose trimmed length
is below ten characters — returning the validation error with no row
inserted — and accepts trimmed names of length ten or more. -/
theorem create_project_name_validation (db : Tables) (uid name : Option String)
    (budget skill : Option String) (g newId : String) (hu : uid ≠ some "auto") :
    ((jsTrim (name.getD "")).length < 10 →
      createProject db uid name budget skill g newId
        = (db, ⟨400, false, some "name_must_be_at_least_10_characters"⟩)) ∧
    (10 ≤ (jsTrim (name.getD "")).length →
      (createProject db uid name budget skill g newId).2.ok = true ∧
      (createProject db uid name budget skill g newId).1.projects
        = db.projects ++ [newProjectRow uid (jsTrim (name.getD "")) budget skill newId]) := by
  constructor
  · intro hlt
    simp [createProject, if_neg hu, hlt]
  · intro hge
    have hlt : ¬ (jsTrim (name.getD "")).length < 10 := not_lt.mpr hge
    constructor
    · simp [createProject, if_neg hu, hlt]
    · simp [createProject, if_neg hu, hlt]

/-- Body fields that are present are written verbatim by the progress
update; only `undefined` fields keep the stored value. -/
theorem bodyField_of_ne_undefined (v old : JVal) (h : v ≠ .undefined) : bodyField v old = v := by
  cases v <;> first | rfl | exact absurd rfl h

/-- C8 (amended): the progress route persists the caller-supplied
`completed_steps` / `current_step_index` verbatim for an existing project —
no coercion and no bounds check against `plan_json.steps`. -/
theorem updateProgress_persists_verbatim (db : Tables) (pid : String) (cs ci : JVal)
    (p : Project) (hp : findProject db.projects pid = some p)
    (hcs : cs ≠ .undefined) (hci : ci ≠ .undefined) :
    (updateProgress db pid cs ci).2 = ⟨200, true, none⟩ ∧
    findProject (updateProgress db pid cs ci).1.projects pid
      = some { p with completed_steps := cs, current_step_index := ci } := by
  constructor
  · simp [updateProgress, hp]
  · simp only [updateProgress, hp]
    rw [findProject_updateWhere db.projects pid
      (fun q => { q with completed_steps := bodyField cs q.completed_steps,
                         current_step_index := bodyField ci q.current_step_index })
      (fun q => rfl), hp]
    simp [bodyField_of_ne_undefined _ _ hcs, bodyField_of_ne_undefined _ _ hci]

/-! ## Concrete stores for counterexamples and witnesses -/

/-- A stored plan whose steps list has exactly two entries. -/
def planTwoSteps : JVal :=
  .obj [("steps", .arr [
    .obj [("order", .num (.fin 1)), ("text", .str "a"), ("notes", .null)],
    .obj [("order", .num (.fin 2)), ("text", .str "b"), ("notes", .null)]])]

/-- A project holding that plan, currently at step 0. -/
def exProgressProject : Project :=
  { id := "p1", user_id := "u1", name := "Garden shelf build", status := "plan_ready"
    input_image_url := some "https://example.com/room.jpg", preview_url := none
    budget := none, skill := none, plan_json := planTwoSteps
    completed_steps := .arr [], current_step_index := .num (.fin 0) }

/-- Store with a casual-tier user owning that project. -/
def exProgressDb : Tables :=
  { profiles := [("u1", "casual")], projects := [exProgressProject] }

/-- C8 counterexample: the progress invariant holds before the call, yet
`updateProgress` accepts `current_step_index = 5` against a two-step plan
and persists it, leaving the stored row in violation of the claimed
invariant. -/
theorem progress_bounds_counterexample :
    progressInvariantHolds exProgressProject = true ∧
    (updateProgress exProgressDb "p1" (.arr []) (.num (.fin 5))).2.ok = true ∧
    ((findProject (updateProgress exProgressDb "p1" (.arr []) (.num (.fin 5))).1.projects "p1").map
        progressInvariantHolds) = some false := by
  refine ⟨rfl, rfl, rfl⟩

/-- Witness: the amended C8 statement at the concrete out-of-bounds call. -/
theorem updateProgress_persists_verbatim_witness :
    (updateProgress exProgressDb "p1" (.arr []) (.num (.fin 5))).2 = ⟨200, true, none⟩ ∧
    findProject (updateProgress exProgressDb "p1" (.arr []) (.num (.fin 5))).1.projects "p1"
      = some { exProgressProject with completed_steps := .arr [], current_step_index := .num (.fin 5) } := by
  have h := updateProgress_persists_verbatim exProgressDb "p1" (.arr []) (.num (.fin 5))
    exProgressProject rfl (by intro hc; cases hc) (by intro hc; cases hc)
  exact h

/-- A fresh draft project row for concrete instances. -/
def exDraft (pid owner : String) : Project :=
  { id := pid, user_id := owner, name := "Example project row", status := "draft"
    input_image_url := none, preview_url := none, budget := none, skill := none
    plan_json := .null, completed_steps := .null, current_step_index := .null }

/-- The same row with an attached image. -/
def exWithImage (pid owner : String) : Project :=
  { exDraft pid owner with input_image_url := some "https://example.com/room.jpg" }

/-- One user per tier; the free user already owns three projects. -/
def exTierDb : Tables :=
  { profiles := [("ann", "free"), ("bob", "casual"), ("cara", "pro")]
    projects := [exDraft "pa1" "ann", exDraft "pa2" "ann", exDraft "pa3" "ann"] }

/-- Witness for C1: the tier table at each tier, and a clamped remaining
quota for a free user who already owns three projects. -/
theorem entitlements_tier_table_witness :
    (getEntitlements exTierDb "ann").2.quota = 2 ∧
    (getEntitlements exTierDb "ann").2.previewAllowed = false ∧
    (getEntitlements exTierDb "bob").2.quota = 5 ∧
    (getEntitlements exTierDb "bob").2.previewAllowed = true ∧
    (getEntitlements exTierDb "cara").2.quota = 25 ∧
    (getEntitlements exTierDb "cara").2.previewAllowed = true ∧
    (getEntitlements exTierDb "ann").2.remaining = 0 := by
  have ha := (entitlements_tier_table exTierDb "ann").1 rfl
  have hb := (entitlements_tier_table exTierDb "bob").2.1 rfl
  have hc := (entitlements_tier_table exTierDb "cara").2.2.1 rfl
  have hr := (entitlements_tier_table exTierDb "ann").2.2.2.1
  exact ⟨ha.1, ha.2, hb.1, hb.2, hc.1, hc.2, by rw [hr, ha.1]; rfl⟩

/-- Witness for C2: a free-tier user's preview request at a concrete store. -/
theorem preview_free_tier_rejected_witness :
    previewRoute exTierDb (some "ann") "g1" "pa1"
      = (exTierDb, ⟨403, false, some "upgrade_required"⟩, none) :=
  preview_free_tier_rejected exTierDb "ann" "g1" "pa1" (by decide) (by decide) rfl

/-- A casual user owning a single project that still has no image. -/
def exNoImageDb : Tables :=
  { profiles := [("bob", "casual")], projects := [exDraft "p2" "bob"] }

/-- Witness for C3: the gate passes for a casual user, yet the imageless
project draws the 422 precondition error with no store change. -/
theorem preview_missing_image_precondition_witness :
    (previewRoute exNoImageDb (some "bob") "g1" "p2").1.projects = exNoImageDb.projects ∧
    (previewRoute exNoImageDb (some "bob") "g1" "p2").2.2 = none ∧
    (previewRoute exNoImageDb (some "bob") "g1" "p2").2.1
      = ⟨422, false, some "missing_input_image_url"⟩ := by
  have h := preview_missing_image_precondition exNoImageDb (some "bob") "g1" "p2"
    (exDraft "p2" "bob") rfl rfl
  exact ⟨h.1, h.2.1, h.2.2 exNoImageDb ("bob", mkEnt "casual" 1) rfl⟩

/-- A casual user's project with an image, mid preview. -/
def exBgDb : Tables :=
  { profiles := [("bob", "casual")], projects := [exWithImage "p4" "bob"] }

/-- The background job snapshotted by the preview route for that project. -/
def exBgJob : BgJob := { pid := "p4", inputImage := "https://example.com/room.jpg" }

/-- A live Decor8 configuration. -/
def exBgEnv : PreviewEnv := { provider := "decor8", hasDecor8Key := true }

/-- Witness for C4: a throwing Decor8 call still lands the project in
`preview_ready` with the stub (input image) url, after the stub delay. -/
theorem preview_provider_failure_fallback_witness :
    (bgPreview exBgDb exBgJob exBgEnv .err false).2 = true ∧
    findProject (bgPreview exBgDb exBgJob exBgEnv .err false).1.projects "p4"
      = some
        { exWithImage "p4" "bob" with
          status := "preview_ready",
          preview_url := some "https://example.com/room.jpg" } :=
  (preview_provider_failure_fallback exBgDb exBgJob exBgEnv (exWithImage "p4" "bob")
    rfl rfl rfl).1

/-- A store that has never seen the user `newbie`. -/
def exRaceDb : Tables := { profiles := [("zoe", "pro")], projects := [] }

/-- Witness for C7 at a concrete store with no row for the user. -/
theorem lazy_profile_creation_race_witness :
    profCount (racedGetEntitlements exRaceDb "newbie").1.profiles "newbie" = 1 ∧
    (racedGetEntitlements exRaceDb "newbie").2.1.error = none ∧
    (racedGetEntitlements exRaceDb "newbie").2.2.error = none ∧
    (racedGetEntitlements exRaceDb "newbie").2.1.tier = "free" ∧
    profFind (racedGetEntitlements exRaceDb "newbie").1.profiles "newbie" = some "free" ∧
    profCount (getEntitlements (getEntitlements exRaceDb "newbie").1 "newbie").1.profiles "newbie" = 1 :=
  lazy_profile_creation_race exRaceDb "newbie" rfl

/-- A free user already over quota: three projects against a quota of two. -/
def exOverQuotaDb : Tables :=
  { profiles := [("opal", "free")]
    projects := [exDraft "q1" "opal", exDraft "q2" "opal", exDraft "q3" "opal"] }

/-- Witness for C9: creation succeeds for a free user whose three owned
projects already exceed the free quota of two. -/
theorem create_project_not_quota_gated_witness :
    countProjects exOverQuotaDb "opal" = 3 ∧
    createProject exOverQuotaDb (some "opal") (some "Bookshelf for hallway") none none "g" "np1"
      = ({ exOverQuotaDb with projects := exOverQuotaDb.projects ++
            [newProjectRow (some "opal") (jsTrim "Bookshelf for hallway") none none "np1"] },
        ⟨200, true, none⟩) := by
  have h := create_project_not_quota_gated exOverQuotaDb (some "opal")
    (some "Bookshelf for hallway") none none "g" "np1" (by decide) (by decide)
  exact ⟨rfl, h.1⟩

/-- Witness for C10: a five-character name is rejected with no insert, a
long name is accepted. -/
theorem create_project_name_validation_witness :
    createProject exOverQuotaDb (some "opal") (some "short") none none "g" "np2"
      = (exOverQuotaDb, ⟨400, false, some "name_must_be_at_least_10_characters"⟩) ∧
    (createProject exOverQuotaDb (some "opal") (some "Bookshelf for hallway") none none "g" "np1").2.ok
      = true := by
  have h := create_project_name_validation exOverQuotaDb (some "opal") (some "short")
    none none "g" "np2" (by decide)
  have h2 := create_project_name_validation exOverQuotaDb (some "opal")
    (some "Bookshelf for hallway") none none "g" "np1" (by decide)
  exact ⟨h.1 (by decide), (h2.2 (by decide)).1⟩

/-! ## Step normalization: order defaults, sorting, stability (C6) -/

theorem mem_insertStep (x a : Step) (l : List Step) :
    a ∈ insertStep x l ↔ a = x ∨ a ∈ l := by
  induction l with
  | nil => simp [insertStep]
  | cons y ys ih =>
    by_cases h : x.order ≤ y.order
    · simp [insertStep, h]
    · simp [insertStep, h, ih]
      tauto

theorem mem_sortSteps (a : Step) (l : List Step) :
    a ∈ sortSteps l ↔ a ∈ l := by
  induction l with
  | nil => simp [sortSteps]
  | cons x xs ih =>
    simp [sortSteps, mem_insertStep, ih]

theorem chain'_insertStep (x : Step) (l : List Step)
    (h : List.Chain' (fun a b => a.order ≤ b.order) l) :
    List.Chain' (fun a b => a.order ≤ b.order) (insertStep x l) := by
  induction l with
  | nil => simp [insertStep]
  | cons y ys ih =>
    by_cases hxy : x.order ≤ y.order
    · simp only [insertStep, if_pos hxy]
      exact List.Chain'.cons hxy h
    · simp only [insertStep, if_neg hxy]
      have hys : List.Chain' (fun a b => a.order ≤ b.order) ys := h.tail
      have hins := ih hys
      cases ys with
      | nil =>
        simp [insertStep]
        exact le_of_lt (lt_of_not_le hxy)
      | cons z zs =>
        by_cases hxz : x.order ≤ z.order
        · simp only [insertStep, if_pos hxz] at hins ⊢
          exact List.Chain'.cons (le_of_lt (lt_of_not_le hxy)) hins
        · simp only [insertStep, if_neg hxz] at hins ⊢
          exact List.Chain'.cons (List.chain'_cons.mp h).1 hins

theorem sortSteps_sorted (l : List Step) :
    List.Chain' (fun a b => a.order ≤ b.order) (sortSteps l) := by
  induction l with
  | nil => simp [sortSteps]
  | cons x xs ih => exact chain'_insertStep x (sortSteps xs) ih

theorem filter_insertStep (x : Step) (l : List Step) (k : Int) :
    (insertStep x l).filter (fun s => s.order = k)
      = if x.order = k then x :: l.filter (fun s => s.order = k)
        else l.filter (fun s => s.order = k) := by
  induction l with
  | nil =>
    by_cases hx : x.order = k <;> simp [insertStep, List.filter_cons, hx]
  | cons y ys ih =>
    by_cases hxy : x.order ≤ y.order
    · simp only [insertStep, if_pos hxy]
      by_cases hx : x.order = k <;> by_cases hy : y.order = k <;>
        simp [List.filter_cons, hx, hy]
    · simp only [insertStep, if_neg hxy]
      have hlt : y.order < x.order := lt_of_not_le hxy
      by_cases hy : y.order = k
      · have hx : ¬ x.order = k := by
          intro hx
          rw [hx, hy] at hlt
          exact lt_irrefl k hlt
        simp [List.filter_cons, hy, hx, ih]
      · by_cases hx : x.order = k <;> simp [List.filter_cons, hy, hx, ih]

theorem filter_sortSteps (l : List Step) (k : Int) :
    (sortSteps l).filter (fun s => s.order = k) = l.filter (fun s => s.order = k) := by
  induction l with
  | nil => rfl
  | cons x xs ih =>
    by_cases hx : x.order = k <;>
      simp [sortSteps, filter_insertStep, List.filter_cons, hx, ih]

theorem normStepsAux_get? (l : List JVal) (k i : Nat) (s₀ : JVal)
    (h : l.get? i = some s₀) :
    (normStepsAux k l).get? i = some (normStep (k + i) s₀) := by
  induction l generalizing k i with
  | nil => cases h
  | cons a rest ih =>
    cases i with
    | zero =>
      cases h
      rfl
    | succ j =>
      have := ih (k + 1) j h
      simpa [normStepsAux, Nat.add_assoc, Nat.add_comm 1 j] using this

/-- C6: every normalized step carries non-empty text (empty-text entries
are dropped); an entry whose `order` field does not coerce to a finite
number gets its 1-based input position as order (and sits at its input
position in the pre-sort list); the output is sorted ascending by `order`;
and entries with equal `order` keep their relative input order (the
filtered pre-sort subsequence at each order value is preserved verbatim —
stability). -/
theorem steps_normalization_spec (x : JVal) :
    (∀ s ∈ (mapPlanToNormalized x).steps, s.text ≠ "") ∧
    (∀ (i : Nat) (s₀ : JVal), (rawSteps (planSrc x)).get? i = some s₀ →
      isFiniteNum (toNumber (getField s₀ "order")) = false →
      (normStep i s₀).order = (i : Int) + 1 ∧
      (normStepsAux 0 (rawSteps (planSrc x))).get? i = some (normStep i s₀)) ∧
    List.Chain' (fun a b => a.order ≤ b.order) (mapPlanToNormalized x).steps ∧
    (∀ k : Int, (mapPlanToNormalized x).steps.filter (fun s => s.order = k)
      = (stepsPre (planSrc x)).filter (fun s => s.order = k)) := by
  refine ⟨?_, ?_, ?_, ?_⟩
  · intro s hs
    have hmem : s ∈ stepsPre (planSrc x) := (mem_sortSteps s _).mp hs
    have := List.of_mem_filter hmem
    simpa using this
  · intro i s₀ hget hfin
    constructor
    · unfold normStep numInt
      cases htn : toNumber (getField s₀ "order") with
      | fin j => rw [htn] at hfin; cases hfin
      | nan => simp
      | inf => simp
      | negInf => simp
    · have := normStepsAux_get? (rawSteps (planSrc x)) 0 i s₀ hget
      simpa using this
  · exact sortSteps_sorted _
  · intro k
    exact filter_sortSteps _ k

/-- First concrete step entry of the spec's positional-order example. -/
def exStepX : JVal := .obj [("text", .str "x")]
/-- Second concrete step entry of the example. -/
def exStepY : JVal := .obj [("text", .str "y")]
/-- The spec example `{steps:[{text:"x"},{text:"y"}]}`. -/
def exStepsPlan : JVal := .obj [("steps", .arr [exStepX, exStepY])]

/-- Witness for C6 at the spec's example: positional 1-based default
orders and the sorted output. -/
theorem steps_normalization_spec_witness :
    (normStep 0 exStepX).order = 1 ∧
    (normStep 1 exStepY).order = 2 ∧
    (mapPlanToNormalized exStepsPlan).steps.map Step.text = ["x", "y"] ∧
    (mapPlanToNormalized exStepsPlan).steps.map Step.order = [1, 2] := by
  have h := (steps_normalization_spec exStepsPlan).2.1
  exact ⟨(h 0 exStepX rfl rfl).1, (h 1 exStepY rfl rfl).1, rfl, rfl⟩

/-! ## Idempotence of plan normalization (C5): trim lemmas -/

theorem dropWhile_dropWhile (p : Char → Bool) (l : List Char) :
    (l.dropWhile p).dropWhile p = l.dropWhile p := by
  induction l with
  | nil => rfl
  | cons a t ih =>
    by_cases h : p a <;> simp [List.dropWhile_cons, h, ih]

theorem head?_dropWhile_false (p : Char → Bool) (l : List Char) (a : Char)
    (h : (l.dropWhile p).head? = some a) : p a = false := by
  induction l with
  | nil => cases h
  | cons b t ih =>
    by_cases hb : p b
    · simp only [List.dropWhile_cons, hb, if_true] at h
      exact ih h
    · simp only [List.dropWhile_cons, hb, if_false, List.head?_cons] at h
      cases h
      simpa using hb

theorem dropWhile_eq_self_of_head (p : Char → Bool) (l : List Char)
    (h : ∀ a, l.head? = some a → p a = false) : l.dropWhile p = l := by
  cases l with
  | nil => rfl
  | cons a t =>
    have := h a rfl
    simp [List.dropWhile_cons, this]

theorem getLast?_dropWhile (p : Char → Bool) (l : List Char)
    (h : l.dropWhile p ≠ []) : (l.dropWhile p).getLast? = l.getLast? := by
  induction l with
  | nil => simp at h
  | cons a t ih =>
    by_cases ha : p a
    · simp only [List.dropWhile_cons, ha, if_true] at h ⊢
      have ht : t ≠ [] := by
        intro he
        subst he
        simp at h
      cases t with
      | nil => exact absurd rfl ht
      | cons b t' =>
        rw [ih h, List.getLast?_cons_cons]
    · simp [List.dropWhile_cons, ha]

theorem dropTrailing_dropTrailing (l : List Char) :
    dropTrailing isJsWs (dropTrailing isJsWs l) = dropTrailing isJsWs l := by
  unfold dropTrailing
  rw [List.reverse_reverse, dropWhile_dropWhile]

theorem dropWhile_dropTrailing (l : List Char)
    (h : ∀ a, l.head? = some a → isJsWs a = false) :
    (dropTrailing isJsWs l).dropWhile isJsWs = dropTrailing isJsWs l := by
  apply dropWhile_eq_self_of_head
  intro a ha
  unfold dropTrailing at ha
  by_cases hne : l.reverse.dropWhile isJsWs = []
  · rw [hne] at ha
    cases ha
  · rw [List.head?_reverse, getLast?_dropWhile _ _ hne, List.getLast?_reverse] at ha
    exact h a ha

theorem trimChars_idem (l : List Char) : trimChars (trimChars l) = trimChars l := by
  unfold trimChars
  rw [dropWhile_dropTrailing (l.dropWhile isJsWs)
    (fun a ha => head?_dropWhile_false isJsWs l a ha),
    dropTrailing_dropTrailing]

theorem jsTrim_idem (s : String) : jsTrim (jsTrim s) = jsTrim s := by
  unfold jsTrim
  exact congrArg String.mk (trimChars_idem s.data)

/-! ## Idempotence of plan normalization: nullish-chain lemmas -/

theorem null_ne_undefined : JVal.null ≠ JVal.undefined := fun h => JVal.noConfusion h

theorem nco_ne_undefined (a b : JVal) (h : b ≠ .undefined) : nco a b ≠ .undefined := by
  unfold nco
  split
  · exact h
  · next hn =>
    intro he
    rw [he] at hn
    simp [nullish] at hn

theorem nco_null_of_ne_undefined (a : JVal) (h : a ≠ .undefined) : nco a .null = a := by
  cases a <;> first | exact absurd rfl h | rfl

/-! ## Idempotence of plan normalization: per-entry roundtrips -/

theorem normMaterial_roundtrip (m : Material) (h1 : jsTrim m.name = m.name)
    (h2 : m.qty ≠ .undefined) (h3 : m.notes ≠ .undefined) :
    normMaterial (materialToJVal m) = m := by
  cases m with
  | mk n q no =>
    show Material.mk (jsTrim n) (nco q .null) (nco no .null) = Material.mk n q no
    rw [h1, nco_null_of_ne_undefined q h2, nco_null_of_ne_undefined no h3]

theorem normTool_roundtrip (t : Tool) (h1 : jsTrim t.name = t.name)
    (h2 : t.notes ≠ .undefined) :
    normTool (toolToJVal t) = t := by
  cases t with
  | mk n no =>
    show Tool.mk (jsTrim n) (nco no .null) = Tool.mk n no
    rw [h1, nco_null_of_ne_undefined no h2]

theorem cut_qty_roundtrip (q : JVal) (h : (∃ i, q = .num (.fin i)) ∨ q = .null) :
    num (nco q .undefined) .null = q := by
  rcases h with ⟨i, rfl⟩ | rfl <;> rfl

theorem normCut_roundtrip (c : Cut) (h1 : jsTrim c.item = c.item)
    (h2 : c.size ≠ .undefined) (h3 : (∃ i, c.qty = .num (.fin i)) ∨ c.qty = .null)
    (h4 : c.notes ≠ .undefined) :
    normCut (cutToJVal c) = c := by
  cases c with
  | mk it sz q no =>
    show Cut.mk (jsTrim it) (nco sz .null) (num (nco q .undefined) .null) (nco no .null)
        = Cut.mk it sz q no
    rw [h1, nco_null_of_ne_undefined sz h2, cut_qty_roundtrip q h3, nco_null_of_ne_undefined no h4]

theorem normStep_roundtrip (k : Nat) (s : Step) (h1 : jsTrim s.text = s.text)
    (h2 : s.notes ≠ .undefined) :
    normStep k (stepToJVal s) = s := by
  cases s with
  | mk o tx no =>
    show Step.mk o (jsTrim tx) (nco no .null) = Step.mk o tx no
    rw [h1, nco_null_of_ne_undefined no h2]

/-! ## Idempotence of plan normalization: shape of first-pass outputs -/

theorem normMaterial_good (v : JVal) :
    jsTrim (normMaterial v).name = (normMaterial v).name ∧
    (normMaterial v).qty ≠ .undefined ∧ (normMaterial v).notes ≠ .undefined :=
  ⟨jsTrim_idem _, nco_ne_undefined _ _ (nco_ne_undefined _ _ (nco_ne_undefined _ _ null_ne_undefined)),
    nco_ne_undefined _ _ null_ne_undefined⟩

theorem normTool_good (v : JVal) :
    jsTrim (normTool v).name = (normTool v).name ∧ (normTool v).notes ≠ .undefined :=
  ⟨jsTrim_idem _, nco_ne_undefined _ _ null_ne_undefined⟩

theorem num_null_shape (v : JVal) :
    (∃ i, num v .null = .num (.fin i)) ∨ num v .null = .null := by
  unfold num
  cases toNumber v with
  | fin i => exact Or.inl ⟨i, rfl⟩
  | nan => exact Or.inr rfl
  | inf => exact Or.inr rfl
  | negInf => exact Or.inr rfl

theorem normCut_good (v : JVal) :
    jsTrim (normCut v).item = (normCut v).item ∧
    (normCut v).size ≠ .undefined ∧
    ((∃ i, (normCut v).qty = .num (.fin i)) ∨ (normCut v).qty = .null) ∧
    (normCut v).notes ≠ .undefined :=
  ⟨jsTrim_idem _, nco_ne_undefined _ _ (nco_ne_undefined _ _ null_ne_undefined),
    num_null_shape _, nco_ne_undefined _ _ null_ne_undefined⟩

theorem normStep_good (k : Nat) (v : JVal) :
    jsTrim (normStep k v).text = (normStep k v).text ∧ (normStep k v).notes ≠ .undefined :=
  ⟨jsTrim_idem _, nco_ne_undefined _ _ null_ne_undefined⟩

theorem mem_normStepsAux (s : Step) (l : List JVal) (k : Nat)
    (h : s ∈ normStepsAux k l) : ∃ j v, s = normStep j v := by
  induction l generalizing k with
  | nil => cases h
  | cons a rest ih =>
    simp only [normStepsAux, List.mem_cons] at h
    rcases h with rfl | h
    · exact ⟨k, a, rfl⟩
    · exact ih (k + 1) h

/-! ## Idempotence of plan normalization: list-level roundtrips -/

theorem normMaterials_list_roundtrip (l : List Material)
    (h : ∀ m ∈ l, jsTrim m.name = m.name ∧ m.qty ≠ .undefined ∧ m.notes ≠ .undefined ∧ m.name ≠ "") :
    ((l.map materialToJVal).map normMaterial).filter (fun m => m.name ≠ "") = l := by
  induction l with
  | nil => rfl
  | cons m rest ih =>
    obtain ⟨h1, h2, h3, h4⟩ := h m (List.mem_cons_self m rest)
    simp only [List.map_cons, List.filter_cons,
      normMaterial_roundtrip m h1 h2 h3, h4, decide_True]
    rw [ih fun a ha => h a (List.mem_cons_of_mem m ha)]
    simp [h4]

theorem normTools_list_roundtrip (l : List Tool)
    (h : ∀ t ∈ l, jsTrim t.name = t.name ∧ t.notes ≠ .undefined ∧ t.name ≠ "") :
    ((l.map toolToJVal).map normTool).filter (fun t => t.name ≠ "") = l := by
  induction l with
  | nil => rfl
  | cons t rest ih =>
    obtain ⟨h1, h2, h3⟩ := h t (List.mem_cons_self t rest)
    simp only [List.map_cons, List.filter_cons, normTool_roundtrip t h1 h2]
    rw [ih fun a ha => h a (List.mem_cons_of_mem t ha)]
    simp [h3]

theorem normCuts_list_roundtrip (l : List Cut)
    (h : ∀ c ∈ l, jsTrim c.item = c.item ∧ c.size ≠ .undefined ∧
      ((∃ i, c.qty = .num (.fin i)) ∨ c.qty = .null) ∧ c.notes ≠ .undefined ∧ c.item ≠ "") :
    ((l.map cutToJVal).map normCut).filter (fun c => c.item ≠ "") = l := by
  induction l with
  | nil => rfl
  | cons c rest ih =>
    obtain ⟨h1, h2, h3, h4, h5⟩ := h c (List.mem_cons_self c rest)
    simp only [List.map_cons, List.filter_cons, normCut_roundtrip c h1 h2 h3 h4]
    rw [ih fun a ha => h a (List.mem_cons_of_mem c ha)]
    simp [h5]

theorem normStepsAux_list_roundtrip (l : List Step) (k : Nat)
    (h : ∀ s ∈ l, jsTrim s.text = s.text ∧ s.notes ≠ .undefined) :
    normStepsAux k (l.map stepToJVal) = l := by
  induction l generalizing k with
  | nil => rfl
  | cons s rest ih =>
    obtain ⟨h1, h2⟩ := h s (List.mem_cons_self s rest)
    simp only [List.map_cons, normStepsAux, normStep_roundtrip k s h1 h2]
    rw [ih (k + 1) fun a ha => h a (List.mem_cons_of_mem s ha)]

theorem sortSteps_of_sorted (l : List Step)
    (h : List.Chain' (fun a b => a.order ≤ b.order) l) : sortSteps l = l := by
  induction l with
  | nil => rfl
  | cons x xs ih =>
    rw [sortSteps, ih h.tail]
    cases xs with
    | nil => rfl
    | cons y ys =>
      have hxy : x.order ≤ y.order := (List.chain'_cons.mp h).1
      simp [insertStep, hxy]

/-! ## Idempotence of plan normalization: the overview block -/

theorem normOverview_good (src : JVal) :
    (normOverview src).title ≠ .undefined ∧ (normOverview src).est_time ≠ .undefined ∧
    (normOverview src).est_cost ≠ .undefined ∧ (normOverview src).skill ≠ .undefined ∧
    (normOverview src).notes ≠ .undefined :=
  ⟨nco_ne_undefined _ _ (nco_ne_undefined _ _ null_ne_undefined),
   nco_ne_undefined _ _ (nco_ne_undefined _ _ null_ne_undefined),
   nco_ne_undefined _ _ (nco_ne_undefined _ _ null_ne_undefined),
   nco_ne_undefined _ _ (nco_ne_undefined _ _ null_ne_undefined),
   nco_ne_undefined _ _ null_ne_undefined⟩

theorem normOverview_roundtrip (p : NormalizedPlan)
    (h1 : p.overview.title ≠ .undefined) (h2 : p.overview.est_time ≠ .undefined)
    (h3 : p.overview.est_cost ≠ .undefined) (h4 : p.overview.skill ≠ .undefined)
    (h5 : p.overview.notes ≠ .undefined) :
    normOverview (planToJVal p) = p.overview := by
  show Overview.mk (nco p.overview.title .null) (nco p.overview.est_time .null)
      (nco p.overview.est_cost .null) (nco p.overview.skill .null)
      (nco p.overview.notes .null) = p.overview
  rw [nco_null_of_ne_undefined _ h1, nco_null_of_ne_undefined _ h2, nco_null_of_ne_undefined _ h3,
    nco_null_of_ne_undefined _ h4, nco_null_of_ne_undefined _ h5]

/-! ## Idempotence of plan normalization: assembly -/

theorem mapPlanToNormalized_materials_inv (src : JVal) :
    ∀ m ∈ normMaterials src,
      jsTrim m.name = m.name ∧ m.qty ≠ .undefined ∧ m.notes ≠ .undefined ∧ m.name ≠ "" := by
  intro m hm
  have hpred := List.of_mem_filter hm
  have hmem := List.mem_of_mem_filter hm
  obtain ⟨v, hv, rfl⟩ := List.mem_map.mp hmem
  obtain ⟨g1, g2, g3⟩ := normMaterial_good v
  exact ⟨g1, g2, g3, by simpa using hpred⟩

theorem mapPlanToNormalized_tools_inv (src : JVal) :
    ∀ t ∈ normTools src,
      jsTrim t.name = t.name ∧ t.notes ≠ .undefined ∧ t.name ≠ "" := by
  intro t ht
  have hpred := List.of_mem_filter ht
  have hmem := List.mem_of_mem_filter ht
  obtain ⟨v, hv, rfl⟩ := List.mem_map.mp hmem
  obtain ⟨g1, g2⟩ := normTool_good v
  exact ⟨g1, g2, by simpa using hpred⟩

theorem mapPlanToNormalized_cuts_inv (src : JVal) :
    ∀ c ∈ normCuts src,
      jsTrim c.item = c.item ∧ c.size ≠ .undefined ∧
      ((∃ i, c.qty = .num (.fin i)) ∨ c.qty = .null) ∧ c.notes ≠ .undefined ∧ c.item ≠ "" := by
  intro c hc
  have hpred := List.of_mem_filter hc
  have hmem := List.mem_of_mem_filter hc
  obtain ⟨v, hv, rfl⟩ := List.mem_map.mp hmem
  obtain ⟨g1, g2, g3, g4⟩ := normCut_good v
  exact ⟨g1, g2, g3, g4, by simpa using hpred⟩

theorem mapPlanToNormalized_steps_inv (src : JVal) :
    ∀ s ∈ sortSteps (stepsPre src),
      jsTrim s.text = s.text ∧ s.notes ≠ .undefined ∧ s.text ≠ "" := by
  intro s hs
  have hmem : s ∈ stepsPre src := (mem_sortSteps s _).mp hs
  have hpred := List.of_mem_filter hmem
  have hmem2 := List.mem_of_mem_filter hmem
  obtain ⟨j, v, rfl⟩ := mem_normStepsAux s _ 0 hmem2
  obtain ⟨g1, g2⟩ := normStep_good j v
  exact ⟨g1, g2, by simpa using hpred⟩

/-- C5: `normalizePlan` is idempotent — re-normalizing the object the
mapper returned reproduces it exactly, in every one of the overview,
materials, tools, cuts and steps components, for every input value. -/
theorem mapPlanToNormalized_idempotent (x : JVal) :
    mapPlanToNormalized (planToJVal (mapPlanToNormalized x)) = mapPlanToNormalized x := by
  set N := mapPlanToNormalized x with hN
  obtain ⟨o1, o2, o3, o4, o5⟩ := normOverview_good (planSrc x)
  have hov : normOverview (planToJVal N) = N.overview :=
    normOverview_roundtrip N o1 o2 o3 o4 o5
  have hmats : normMaterials (planToJVal N) = N.materials := by
    show (((N.materials.map materialToJVal).map normMaterial).filter
      (fun m => m.name ≠ "")) = N.materials
    exact normMaterials_list_roundtrip _ (mapPlanToNormalized_materials_inv (planSrc x))
  have htools : normTools (planToJVal N) = N.tools := by
    show (((N.tools.map toolToJVal).map normTool).filter
      (fun t => t.name ≠ "")) = N.tools
    exact normTools_list_roundtrip _ (mapPlanToNormalized_tools_inv (planSrc x))
  have hcuts : normCuts (planToJVal N) = N.cuts := by
    show (((N.cuts.map cutToJVal).map normCut).filter
      (fun c => c.item ≠ "")) = N.cuts
    exact normCuts_list_roundtrip _ (mapPlanToNormalized_cuts_inv (planSrc x))
  have hpre : stepsPre (planToJVal N) = N.steps := by
    show (normStepsAux 0 (N.steps.map stepToJVal)).filter
        (fun s => s.text ≠ "") = N.steps
    rw [normStepsAux_list_roundtrip N.steps 0
      (fun s hs => ⟨(mapPlanToNormalized_steps_inv (planSrc x) s hs).1,
        (mapPlanToNormalized_steps_inv (planSrc x) s hs).2.1⟩)]
    apply List.filter_eq_self.mpr
    intro s hs
    have := (mapPlanToNormalized_steps_inv (planSrc x) s hs).2.2
    simpa using this
  have hsteps : sortSteps (stepsPre (planToJVal N)) = N.steps := by
    rw [hpre]
    exact sortSteps_of_sorted N.steps (sortSteps_sorted (stepsPre (planSrc x)))
  show (⟨normOverview (planToJVal N), normMaterials (planToJVal N), normTools (planToJVal N),
    normCuts (planToJVal N), sortSteps (stepsPre (planToJVal N))⟩ : NormalizedPlan) = N
  rw [hov, hmats, htools, hcuts, hsteps]
